import Mathlib

/-!
Verification of the game core of the Tic-Tac-Toe repository (src/main.py).

The embedding models the pure game logic of the source:

* `Player` (main.py line 8): a Python object with a `name` attribute.  The class
  defines no `__eq__`/`__hash__`, so dictionary keying, `in`, `==` and `!=` all
  work on object identity.  The field `id` models that object identity; two
  distinct Python objects carry distinct `id`s even when their names coincide.
  The `color` attribute is presentation-only (never read by the game logic) and
  is omitted.
* `Point` (main.py line 22): a board cell.  The UI-widget fields are omitted;
  the game state is `row`, `column` (set by `Point.initial`) and `owner`.
  The field `pid` models the object identity of the cell, used by the
  `point not in self._points` membership test (line 239), which compares
  objects, not coordinates.
* `GameBoard` (main.py line 108): `board_size` (`_board_size`), the
  `_players` dict as an association list in key-insertion order
  (`playersAssoc`), the row-major `_points` list, and `_turn`.  Player lists
  hold the identities (`pid`) of the owned points; the Python lists hold the
  point objects themselves, which alias the objects in `_points`, so the
  single source of truth for a point's data is the `points` list here.
* Exceptions raised by the source are modelled by the error enumerations
  `ConstructError` and `SelectError`, named after the failure taxonomy.

Python integers are modelled by `Int` (rows, columns, flat indices); counts
are `Nat`.
-/

/-- Outcome status of one move: the string constants `WIN`, `DRAW`, `NOTHING`
of class `GameBoard_Event` (main.py lines 95-97). -/
inductive GameStatus where
  | WIN
  | DRAW
  | NOTHING
  deriving DecidableEq

/-- A participant (main.py line 8).  `id` models Python object identity. -/
structure Player where
  id : Nat
  name : String
  deriving DecidableEq

/-- A board cell (main.py lines 22, 79-88).  `pid` models object identity. -/
structure Point where
  pid : Nat
  row : Int
  column : Int
  owner : Option Player
  deriving DecidableEq

/-- The event returned by `select_point` (main.py lines 94-102). -/
structure GameBoard_Event where
  status : GameStatus
  player : Player
  point : Point
  deriving DecidableEq

/-- Validation failures of `GameBoard.select_point` (main.py lines 230-243),
in the spec's taxonomy. -/
inductive SelectError where
  | UnknownPlayer
  | NotYourTurn
  | CellNotOnBoard
  | CellAlreadyOwned
  deriving DecidableEq

/-- Construction-time failures of `GameBoard.__init__` (main.py lines 119-126,
171-175, 177-182), in the spec's taxonomy.  The two insufficient-player cases
carry distinct messages in the source, hence two constructors. -/
inductive ConstructError where
  | InsufficientPlayersAlone
  | InsufficientPlayersNone
  | DuplicatePlayer
  | UnknownStartingPlayer
  deriving DecidableEq

/-- The board (main.py line 108): `_board_size`, the `_players` dict (an
association list in key-insertion order, values are the identities of the
owned points in selection order), the `_points` list in allocation (row-major)
order, and `_turn`. -/
structure GameBoard where
  board_size : Nat
  playersAssoc : List (Player × List Nat)
  points : List Point
  turn : Player
  deriving DecidableEq

/-- The `all_players` property (main.py lines 162-164): the dict keys in
insertion order. -/
def all_players (b : GameBoard) : List Player :=
  b.playersAssoc.map Prod.fst

/-- `GameBoard._player_exist` (main.py lines 166-169): the player is a key of
the `_players` dict.  Key comparison is object identity. -/
def _player_exist (b : GameBoard) (player : Player) : Bool :=
  b.playersAssoc.any fun e => decide (e.1 = player)

/-- `GameBoard._add_player` (main.py lines 171-175): raises (DuplicatePlayer)
when the player is already a key, otherwise appends a key with an empty list
(`setdefault`). -/
def _add_player (assoc : List (Player × List Nat)) (player : Player) :
    Except ConstructError (List (Player × List Nat)) :=
  if assoc.any fun e => decide (e.1 = player) then .error .DuplicatePlayer
  else .ok (assoc ++ [(player, [])])

/-- The `_points` list built by the nested loops of `__init__` (main.py lines
139-147): N*N cells in row-major order, cell number i at row i / N, column
i % N, initially unowned.  `pid` is the allocation index. -/
def stdPoints (N : Nat) : List Point :=
  (List.range (N * N)).map fun i =>
    { pid := i, row := Int.ofNat (i / N), column := Int.ofNat (i % N), owner := none }

/-- The loop `for player in players: self._add_player(player)` (main.py lines
133-134): sequentially add every player, stopping at the first failure. -/
def add_players (acc : List (Player × List Nat)) :
    List Player → Except ConstructError (List (Player × List Nat))
  | [] => .ok acc
  | p :: ps =>
    match _add_player acc p with
    | .error e => .error e
    | .ok acc2 => add_players acc2 ps

/-- `GameBoard.__init__` (main.py lines 109-152) restricted to the game state:
player-count validation, `_add_player` over the supplied list, `_set_turn`
with an explicit starting player (the `turn=None` random default is outside
the claims' scope), and allocation of the cells. -/
def mkGameBoard (board_size : Nat) (players : List Player) (turn : Player) :
    Except ConstructError GameBoard :=
  if players.length < 2 then
    if players.length = 1 then .error .InsufficientPlayersAlone
    else .error .InsufficientPlayersNone
  else
    match add_players [] players with
    | .error e => .error e
    | .ok assoc =>
      if assoc.any fun e => decide (e.1 = turn) then
        .ok { board_size := board_size, playersAssoc := assoc,
              points := stdPoints board_size, turn := turn }
      else .error .UnknownStartingPlayer

/-- Dictionary lookup `self._players[player]` (key comparison is object
identity; returns the empty list on a missing key, a case the source never
reaches because the key is validated first). -/
def dictGet (assoc : List (Player × List Nat)) (player : Player) : List Nat :=
  match assoc.find? fun e => decide (e.1 = player) with
  | some e => e.2
  | none => []

/-- The (row, column) pairs of the points in a player's list
(`self._players[player]`, resolved through the board's `_points` since the
Python list aliases those objects). -/
def player_cells (b : GameBoard) (player : Player) : List (Int × Int) :=
  (dictGet b.playersAssoc player).filterMap fun pid =>
    (b.points.find? fun q => decide (q.pid = pid)).map fun q => (q.row, q.column)

/-- The count `sum(1 for point in self._points if point.owner is not None)`
(main.py line 262). -/
def countOwned (b : GameBoard) : Nat :=
  (b.points.filter fun q => decide (q.owner ≠ none)).length

/-- All point identities appearing in the players' owned lists, across all
players. -/
def allListPids (b : GameBoard) : List Nat :=
  (b.playersAssoc.map Prod.snd).flatten

/-- The identities of the points with a non-null owner. -/
def owned_pids (b : GameBoard) : List Nat :=
  (b.points.filter fun q => decide (q.owner ≠ none)).map Point.pid

/-- The while loop of `_longest_consecutive` (main.py lines 195-197): starting
streak 1 at `current`, walk upward while the successor is in the set.  `fuel`
bounds the walk; the callers pass the set size, which the walk can never
exhaust. -/
def _streak (s : List Int) : Nat → Int → Nat
  | 0, _ => 1
  | fuel + 1, current => if (current + 1) ∈ s then 1 + _streak s fuel (current + 1) else 1

/-- `GameBoard._longest_consecutive` (main.py lines 186-202): true when the
set of `nums` contains a streak of at least `board_size` consecutive
integers.  The source iterates the set, starts a walk at each value whose
predecessor is absent, and returns True as soon as the running maximum streak
reaches `board_size`; that is equivalent to some streak reaching it. -/
def _longest_consecutive (board_size : Nat) (nums : List Int) : Bool :=
  let num_set := nums.dedup
  num_set.any fun num =>
    !decide ((num - 1) ∈ num_set) &&
      decide (board_size ≤ _streak num_set num_set.length num)

/-- `GameBoard._win_position_check` (main.py lines 204-222) as a pure function
of the acting player's cell coordinates.  `horizontal_state` groups the
columns of the player's cells by row (dict keyed by row, values in insertion
order), `vertical_state` groups rows by column; the player wins when any
group passes `_longest_consecutive`.  (The source's existence check on the
player always passes at the call site inside `select_point`.) -/
def _win_position_check (board_size : Nat) (player_points : List (Int × Int)) : Bool :=
  let horizontal_state := ((player_points.map Prod.fst).dedup).map fun row =>
    player_points.filterMap fun pt => if pt.1 = row then some pt.2 else none
  let vertical_state := ((player_points.map Prod.snd).dedup).map fun column =>
    player_points.filterMap fun pt => if pt.2 = column then some pt.1 else none
  (horizontal_state ++ vertical_state).any fun consecutive =>
    _longest_consecutive board_size consecutive

/-- Python list indexing `l[i]` on `self._points` wrapped in an `Option`:
a non-negative index in range reads directly, a negative index not below
`-len(l)` reads from the end, anything else raises IndexError. -/
def pyGet (l : List Point) (i : Int) : Option Point :=
  if 0 ≤ i then l[i.toNat]?
  else if -(l.length : Int) ≤ i then l[(i + l.length).toNat]?
  else none

/-- `GameBoard.get_point` (main.py lines 224-225):
`self._points[row * self.board_size + column]`. -/
def get_point (b : GameBoard) (row column : Int) : Option Point :=
  pyGet b.points (row * b.board_size + column)

/-- Python `list.index` on the player list (main.py line 246): index of the
first occurrence (by object identity). -/
def list_index (l : List Player) (player : Player) : Nat :=
  l.findIdx fun x => decide (x = player)

/-- The turn advance of `select_point` (main.py lines 245-252): index of the
acting player in `all_players`, plus one, wrapping to 0 after the last
player; `_set_turn` to the player at that index.  (The list access is always
in bounds when the acting player is registered; the `getD` default covers
the case the source would reach only on an unregistered acting player.) -/
def next_turn (b : GameBoard) (player : Player) : Player :=
  let player_index := list_index (all_players b) player
  let next_player_index :=
    if player_index + 1 = b.playersAssoc.length then 0 else player_index + 1
  (all_players b).getD next_player_index b.turn

/-- The dict mutation `self._players[player].append(...)` (main.py line 253):
append the selected point's identity to the acting player's list. -/
def updAssoc (assoc : List (Player × List Nat)) (player : Player) (pid : Nat) :
    List (Player × List Nat) :=
  assoc.map fun e => if e.1 = player then (e.1, e.2 ++ [pid]) else e

/-- The mutations of a successful `select_point` (main.py lines 245-253), with
`q` the board's point object selected by the membership test: advance the
turn, set the point's owner, append the point to the acting player's list. -/
def select_apply (b : GameBoard) (point : Point) (player : Player) (q : Point) : GameBoard :=
  { board_size := b.board_size
    playersAssoc := updAssoc b.playersAssoc player point.pid
    points := b.points.set (b.points.findIdx fun r => decide (r.pid = point.pid))
      { q with owner := some player }
    turn := next_turn b player }

/-- The outcome computation of `select_point` (main.py lines 255-265), read on
the post-move state: skip everything unless the acting player's list has
reached `board_size` entries; then WIN if the win check fires, else DRAW if
all N*N cells are owned, else NOTHING. -/
def select_status (b : GameBoard) (point : Point) (player : Player) (q : Point) : GameStatus :=
  let b2 := select_apply b point player q
  if b.board_size ≤ (dictGet b2.playersAssoc player).length then
    if _win_position_check b.board_size (player_cells b2 player) then .WIN
    else if countOwned b2 = b.board_size ^ 2 then .DRAW
    else .NOTHING
  else .NOTHING

/-- The tail of `select_point` after the acting player is resolved (main.py
lines 239-267): cell-membership check by object identity, already-owned
check, then the mutations and the outcome event. -/
def select_validated (b : GameBoard) (point : Point) (player : Player) :
    GameBoard × Except SelectError GameBoard_Event :=
  match b.points[b.points.findIdx fun r => decide (r.pid = point.pid)]? with
  | none => (b, .error .CellNotOnBoard)
  | some q =>
    if q.owner ≠ none then (b, .error .CellAlreadyOwned)
    else (select_apply b point player q,
          .ok { status := select_status b point player q, player := player,
                point := { q with owner := some player } })

/-- `GameBoard.select_point` (main.py lines 227-267).  With the acting player
omitted it defaults to the current turn with no validation; an explicit
acting player must be registered and must be the current turn. -/
def select_point (b : GameBoard) (point : Point) (player? : Option Player) :
    GameBoard × Except SelectError GameBoard_Event :=
  match player? with
  | none => select_validated b point b.turn
  | some p =>
    if _player_exist b p = false then (b, .error .UnknownPlayer)
    else if p ≠ b.turn then (b, .error .NotYourTurn)
    else select_validated b point p

/-- A sequence of `select_point` calls, all of which must succeed. -/
def runTrace : GameBoard → List (Point × Option Player) → Option GameBoard
  | b, [] => some b
  | b, m :: ms =>
    match select_point b m.1 m.2 with
    | (b2, .ok _) => runTrace b2 ms
    | (_, .error _) => none

/-- Whether a construction attempt succeeded. -/
def got_ok (r : Except ConstructError GameBoard) : Bool :=
  match r with
  | .ok _ => true
  | .error _ => false

/-- The board of a successful construction, with a fallback default. -/
def okD (r : Except ConstructError GameBoard) (d : GameBoard) : GameBoard :=
  match r with
  | .ok b => b
  | .error _ => d

/-- The event of a successful `select_point` result, with a fallback
default. -/
def evOrD (r : Except SelectError GameBoard_Event) (d : GameBoard_Event) : GameBoard_Event :=
  match r with
  | .ok ev => ev
  | .error _ => d

/-- Concrete players for the concrete-game evaluations. -/
def w0 : Player := { id := 0, name := "a" }

def w1 : Player := { id := 1, name := "b" }

def w2 : Player := { id := 2, name := "c" }

def w3 : Player := { id := 3, name := "d" }

def wPlayers : List Player := [w0, w1]

def emptyGB : GameBoard := { board_size := 0, playersAssoc := [], points := [], turn := w0 }

/-- A fresh two-player 2 by 2 board with `w0` to move. -/
def wB0 : GameBoard := okD (mkGameBoard 2 wPlayers w0) emptyGB

/-- A fresh unowned point reference, as the UI would pass one of the board's
cells to `select_point`. -/
def wpt (pid : Nat) (r c : Int) : Point := { pid := pid, row := r, column := c, owner := none }

/-- The board after `w0` takes cell (0,0) on `wB0`. -/
def wB1 : GameBoard := (runTrace wB0 [(wpt 0 0 0, none)]).getD emptyGB

/-- The event returned when `w0` takes cell (0,0) on `wB0`. -/
def wEv0 : GameBoard_Event :=
  evOrD (select_point wB0 (wpt 0 0 0) none).2
    { status := .WIN, player := w1, point := wpt 9 9 9 }

/-- Four players on a 2 by 2 board: each player moves once and the board
fills with nobody owning two cells. -/
def xPlayers : List Player := [w0, w1, w2, w3]

def xB0 : GameBoard := okD (mkGameBoard 2 xPlayers w0) emptyGB

def xB3 : GameBoard :=
  (runTrace xB0 [(wpt 0 0 0, none), (wpt 1 0 1, none), (wpt 2 1 0, none)]).getD emptyGB

/-- The final, board-filling move of the four-player 2 by 2 game. -/
def xRes : GameBoard × Except SelectError GameBoard_Event :=
  select_point xB3 (wpt 3 1 1) none

def xEv : GameBoard_Event := evOrD xRes.2 { status := .WIN, player := w0, point := wpt 0 0 0 }

/-- Whether a `select_point` result is a success. -/
def sel_ok (r : GameBoard × Except SelectError GameBoard_Event) : Bool :=
  match r.2 with
  | .ok _ => true
  | .error _ => false

/-- A concrete two-player 3 by 3 board, for the `get_point` evaluations. -/
def wB5 : GameBoard := okD (mkGameBoard 3 wPlayers w0) emptyGB

/-- A main-diagonal line of three cells. -/
def wDiag : List (Int × Int) := [(0, 0), (1, 1), (2, 2)]

/-- A top-row line of three cells. -/
def wRow3 : List (Int × Int) := [(0, 0), (0, 1), (0, 2)]

/-- Two distinct Player objects that carry the same name. -/
def p6a : Player := { id := 0, name := "same" }

def p6b : Player := { id := 1, name := "same" }

/-- The state invariant maintained by construction and by every successful
move: the turn is a registered player, the registration list and the point
identities have no duplicates, the players' lists hold exactly the owned
points with no duplicates, and the owned-cell count equals the total list
length. -/
structure BoardInv (b : GameBoard) : Prop where
  turn_mem : b.turn ∈ all_players b
  keys_nodup : (all_players b).Nodup
  pids_nodup : (b.points.map Point.pid).Nodup
  mem_iff : ∀ pid : Nat, pid ∈ allListPids b ↔ pid ∈ owned_pids b
  lists_nodup : (allListPids b).Nodup
  count_eq : countOwned b = (allListPids b).length

/-! ### Generic list lemmas used by the development -/

theorem findIdx_none_of_all {α : Type} {l : List α} {p : α → Bool}
    (h : ∀ x ∈ l, p x = false) : l[l.findIdx p]? = none := by
  apply List.getElem?_eq_none
  by_contra hlt
  push_neg at hlt
  rcases List.findIdx_lt_length.mp hlt with ⟨x, hx, hpx⟩
  rw [h x hx] at hpx
  exact Bool.false_ne_true hpx

theorem findIdx_mem_prop {α : Type} {l : List α} {p : α → Bool} {q : α}
    (h : l[l.findIdx p]? = some q) : q ∈ l ∧ p q = true := by
  rcases List.getElem?_eq_some_iff.mp h with ⟨hlt, hq⟩
  exact ⟨hq ▸ List.getElem_mem hlt, hq ▸ List.findIdx_getElem (w := hlt)⟩

theorem findIdx_decomp {α : Type} (l : List α) (p : α → Bool) (q : α)
    (h : l[l.findIdx p]? = some q) :
    ∃ T D, l = T ++ q :: D ∧ l.findIdx p = T.length ∧ ∀ x ∈ T, p x = false := by
  induction l with
  | nil => simp at h
  | cons a t ih =>
    rw [List.findIdx_cons] at h
    cases hpa : p a with
    | true =>
      rw [hpa] at h
      simp only [cond_true, List.getElem?_cons_zero, Option.some.injEq] at h
      exact ⟨[], t, by simp [h], by simp [List.findIdx_cons, hpa], by simp⟩
    | false =>
      rw [hpa] at h
      simp only [cond_false, List.getElem?_cons_succ] at h
      rcases ih h with ⟨T, D, hl, hidx, hT⟩
      refine ⟨a :: T, D, by simp [hl], ?_, ?_⟩
      · simp [List.findIdx_cons, hpa, hidx]
      · intro x hx
        rcases List.mem_cons.mp hx with hx | hx
        · exact hx ▸ hpa
        · exact hT x hx

theorem set_at_length {α : Type} (T D : List α) (q a : α) :
    (T ++ q :: D).set T.length a = T ++ a :: D := by
  induction T with
  | nil => simp
  | cons x t ih => simp [List.set_cons_succ, ih]

theorem findIdx_pid_unique (l : List Point) (hnd : (l.map Point.pid).Nodup)
    (q : Point) (hq : q ∈ l) (pid : Nat) (hpid : q.pid = pid) :
    l[l.findIdx fun r => decide (r.pid = pid)]? = some q := by
  induction l with
  | nil => simp at hq
  | cons a t ih =>
    simp only [List.map_cons, List.nodup_cons] at hnd
    rw [List.findIdx_cons]
    by_cases ha : a.pid = pid
    · have : q = a := by
        rcases List.mem_cons.mp hq with h | h
        · exact h
        · exfalso
          apply hnd.1
          rw [ha, ← hpid]
          exact List.mem_map_of_mem Point.pid h
      simp [ha, this]
    · have hq' : q ∈ t := by
        rcases List.mem_cons.mp hq with h | h
        · exact absurd (h ▸ hpid) ha
        · exact h
      simp only [decide_eq_true_eq, ha, decide_False, cond_false, List.getElem?_cons_succ]
      exact ih hnd.2 hq'

/-! ### Lemmas about the players dictionary update -/

theorem updAssoc_nil (player : Player) (pid : Nat) : updAssoc [] player pid = [] := rfl

theorem updAssoc_cons (e : Player × List Nat) (t : List (Player × List Nat))
    (player : Player) (pid : Nat) :
    updAssoc (e :: t) player pid =
      (if e.1 = player then (e.1, e.2 ++ [pid]) else e) :: updAssoc t player pid := rfl

theorem updAssoc_keys (assoc : List (Player × List Nat)) (player : Player) (pid : Nat) :
    (updAssoc assoc player pid).map Prod.fst = assoc.map Prod.fst := by
  induction assoc with
  | nil => rfl
  | cons e t ih =>
    rw [updAssoc_cons]
    by_cases h : e.1 = player <;> simp [h, ih]

theorem updAssoc_id (assoc : List (Player × List Nat)) (player : Player) (pid : Nat)
    (h : player ∉ assoc.map Prod.fst) : updAssoc assoc player pid = assoc := by
  induction assoc with
  | nil => rfl
  | cons e t ih =>
    simp only [List.map_cons, List.mem_cons] at h
    push_neg at h
    rw [updAssoc_cons, if_neg (fun he => h.1 he.symm), ih h.2]

theorem updAssoc_flatten_mem (assoc : List (Player × List Nat)) (player : Player)
    (pid : Nat) (x : Nat) :
    (x ∈ ((updAssoc assoc player pid).map Prod.snd).flatten ↔
      x ∈ (assoc.map Prod.snd).flatten ∨ (player ∈ assoc.map Prod.fst ∧ x = pid)) := by
  induction assoc with
  | nil => simp [updAssoc_nil]
  | cons e t ih =>
    by_cases h : e.1 = player
    · subst h
      rw [updAssoc_cons, if_pos rfl]
      simp only [List.map_cons, List.flatten_cons, List.mem_append, List.mem_cons,
        List.mem_singleton]
      rw [ih]
      tauto
    · rw [updAssoc_cons, if_neg h]
      simp only [List.map_cons, List.flatten_cons, List.mem_append, List.mem_cons]
      rw [ih]
      have hne : ¬ player = e.1 := fun hh => h hh.symm
      tauto

theorem updAssoc_flatten_len (assoc : List (Player × List Nat)) (player : Player)
    (pid : Nat) (hk : (assoc.map Prod.fst).Nodup) (hm : player ∈ assoc.map Prod.fst) :
    ((updAssoc assoc player pid).map Prod.snd).flatten.length =
      (assoc.map Prod.snd).flatten.length + 1 := by
  induction assoc with
  | nil => simp at hm
  | cons e t ih =>
    simp only [List.map_cons, List.nodup_cons] at hk
    simp only [List.map_cons, List.mem_cons] at hm
    by_cases h : e.1 = player
    · have ht : player ∉ t.map Prod.fst := h ▸ hk.1
      rw [updAssoc_cons, if_pos h, updAssoc_id t player pid ht]
      simp only [List.map_cons, List.flatten_cons, List.length_append, List.length_cons,
        List.length_nil]
      omega
    · have hm' : player ∈ t.map Prod.fst := by
        rcases hm with hm | hm
        · exact absurd hm.symm h
        · exact hm
      rw [updAssoc_cons, if_neg h]
      simp only [List.map_cons, List.flatten_cons, List.length_append]
      rw [ih hk.2 hm']
      omega

theorem updAssoc_flatten_nodup (assoc : List (Player × List Nat)) (player : Player)
    (pid : Nat) (hk : (assoc.map Prod.fst).Nodup)
    (hnd : ((assoc.map Prod.snd).flatten).Nodup)
    (hfresh : pid ∉ (assoc.map Prod.snd).flatten) :
    (((updAssoc assoc player pid).map Prod.snd).flatten).Nodup := by
  induction assoc with
  | nil => simp [updAssoc_nil]
  | cons e t ih =>
    simp only [List.map_cons, List.nodup_cons] at hk
    simp only [List.map_cons, List.flatten_cons, List.nodup_append] at hnd
    simp only [List.map_cons, List.flatten_cons, List.mem_append] at hfresh
    by_cases h : e.1 = player
    · have ht : player ∉ t.map Prod.fst := h ▸ hk.1
      rw [updAssoc_cons, if_pos h, updAssoc_id t player pid ht]
      simp only [List.map_cons, List.flatten_cons]
      rw [List.append_assoc, List.nodup_append]
      refine ⟨hnd.1, ?_, ?_⟩
      · simp only [List.singleton_append, List.nodup_cons]
        exact ⟨fun hc => hfresh (Or.inr hc), hnd.2.1⟩
      · intro x hx hx'
        rw [List.singleton_append, List.mem_cons] at hx'
        rcases hx' with he | hc
        · exact hfresh (Or.inl (he ▸ hx))
        · exact hnd.2.2 hx hc
    · rw [updAssoc_cons, if_neg h]
      simp only [List.map_cons, List.flatten_cons]
      rw [List.nodup_append]
      refine ⟨hnd.1, ih hk.2 hnd.2.1 (fun hc => hfresh (Or.inr hc)), ?_⟩
      intro x hx hx'
      rcases (updAssoc_flatten_mem t player pid x).mp hx' with hx' | ⟨_, hx'⟩
      · exact hnd.2.2 hx hx'
      · exact hfresh (Or.inl (hx' ▸ hx))

/-! ### Basic facts about the board operations -/

theorem player_exist_iff (b : GameBoard) (p : Player) :
    _player_exist b p = true ↔ p ∈ all_players b := by
  simp only [_player_exist, all_players, List.any_eq_true, decide_eq_true_eq, List.mem_map]

/-- Inversion of a successful `select_point`: the acting player is the current
turn (either by defaulting or because the explicit player was validated
against it), the board's first point matching the given identity was unowned,
and the result is the mutation plus the computed outcome event. -/
theorem select_ok_inv (b b2 : GameBoard) (pt : Point) (pl? : Option Player)
    (ev : GameBoard_Event) (h : select_point b pt pl? = (b2, .ok ev)) :
    ∃ q, b.points[b.points.findIdx fun r => decide (r.pid = pt.pid)]? = some q ∧
      q.owner = none ∧
      ev = { status := select_status b pt b.turn q, player := b.turn,
             point := { q with owner := some b.turn } } ∧
      b2 = select_apply b pt b.turn q := by
  cases pl? with
  | none =>
    rw [select_point] at h
    rw [select_validated] at h
    split at h
    · exact absurd h (by simp)
    · rename_i q hq
      split at h
      · exact absurd h (by simp)
      · rename_i how
        push_neg at how
        rw [Prod.mk.injEq] at h
        refine ⟨q, hq, how, ?_, h.1.symm⟩
        have := h.2
        injection this with hev
        exact hev.symm
  | some p =>
    rw [select_point] at h
    split at h
    · exact absurd h (by simp)
    · split at h
      · exact absurd h (by simp)
      · rename_i hne
        push_neg at hne
        subst hne
        rw [select_validated] at h
        split at h
        · exact absurd h (by simp)
        · rename_i q hq
          split at h
          · exact absurd h (by simp)
          · rename_i how
            push_neg at how
            rw [Prod.mk.injEq] at h
            refine ⟨q, hq, how, ?_, h.1.symm⟩
            have := h.2
            injection this with hev
            exact hev.symm

/-- Claim C4: every failing `select_point` call (UnknownPlayer, NotYourTurn,
CellNotOnBoard or CellAlreadyOwned) leaves the board state — cell owners,
turn pointer and all owned-cell lists — exactly as it was: all validations
run before any mutation. -/
theorem C4_fail_no_mutation (b : GameBoard) (pt : Point) (pl? : Option Player)
    (e : SelectError) (b2 : GameBoard)
    (h : select_point b pt pl? = (b2, .error e)) : b2 = b := by
  cases pl? with
  | none =>
    rw [select_point, select_validated] at h
    split at h
    · exact ((Prod.mk.injEq _ _ _ _).mp h).1.symm
    · split at h
      · exact ((Prod.mk.injEq _ _ _ _).mp h).1.symm
      · exact absurd ((Prod.mk.injEq _ _ _ _).mp h).2 (by simp)
  | some p =>
    rw [select_point] at h
    split at h
    · exact ((Prod.mk.injEq _ _ _ _).mp h).1.symm
    · split at h
      · exact ((Prod.mk.injEq _ _ _ _).mp h).1.symm
      · rw [select_validated] at h
        split at h
        · exact ((Prod.mk.injEq _ _ _ _).mp h).1.symm
        · split at h
          · exact ((Prod.mk.injEq _ _ _ _).mp h).1.symm
          · exact absurd ((Prod.mk.injEq _ _ _ _).mp h).2 (by simp)

/-- Witness for C4: selecting a cell that is not on the fresh 2 by 2 board
fails and leaves the board unchanged. -/
theorem C4_witness : (select_point wB0 (wpt 9 0 0) none).1 = wB0 :=
  C4_fail_no_mutation wB0 (wpt 9 0 0) none .CellNotOnBoard
    (select_point wB0 (wpt 9 0 0) none).1 (by rfl)

/-- Claim C9: calling `select_point` with the explicit acting player equal to
the board's current turn gives exactly the same result (event or failure) and
the same final state as omitting the acting player. -/
theorem C9_default_player (b : GameBoard) (pt : Point) (h : b.turn ∈ all_players b) :
    select_point b pt (some b.turn) = select_point b pt none := by
  rw [select_point, select_point]
  rw [if_neg (by simp [(player_exist_iff b b.turn).mpr h]), if_neg (by simp)]

/-- Witness for C9 on the fresh 2 by 2 board. -/
theorem C9_witness :
    select_point wB0 (wpt 0 0 0) (some w0) = select_point wB0 (wpt 0 0 0) none :=
  C9_default_player wB0 (wpt 0 0 0) (by decide)

/-- Claim C10: the cell-membership validation compares cell identity, not
coordinates: a point object that is not one of the board's points fails with
CellNotOnBoard even when some board point has exactly the same row and
column. -/
theorem C10_identity_membership (b : GameBoard) (pt q : Point)
    (hq : q ∈ b.points) (hrow : q.row = pt.row) (hcol : q.column = pt.column)
    (hpid : ∀ r ∈ b.points, ¬ r.pid = pt.pid) :
    select_point b pt none = (b, .error .CellNotOnBoard) := by
  rw [select_point, select_validated]
  rw [findIdx_none_of_all (fun x hx => by simp [hpid x hx])]

/-- Witness for C10: a foreign point carrying the same coordinates (0,0) as
the board's first cell is rejected. -/
theorem C10_witness :
    select_point wB0 (wpt 9 0 0) none = (wB0, .error .CellNotOnBoard) :=
  C10_identity_membership wB0 (wpt 9 0 0) { pid := 0, row := 0, column := 0, owner := none }
    (by decide) (by decide) (by decide) (by decide)

/-- Claim C7: with an explicit acting player, the validations of
`select_point` run in the order UnknownPlayer, NotYourTurn, CellNotOnBoard,
CellAlreadyOwned, each its own distinct failure; when several preconditions
are violated the earliest failure in this order is the one raised (each
conjunct assumes nothing about the later checks). -/
theorem C7_validation_order (b : GameBoard) (pt : Point) (p : Player) :
    (p ∉ all_players b → select_point b pt (some p) = (b, .error .UnknownPlayer)) ∧
    (p ∈ all_players b → p ≠ b.turn →
      select_point b pt (some p) = (b, .error .NotYourTurn)) ∧
    (p ∈ all_players b → p = b.turn → (∀ r ∈ b.points, ¬ r.pid = pt.pid) →
      select_point b pt (some p) = (b, .error .CellNotOnBoard)) ∧
    (p ∈ all_players b → p = b.turn → (b.points.map Point.pid).Nodup →
      ∀ q ∈ b.points, q.pid = pt.pid → q.owner ≠ none →
      select_point b pt (some p) = (b, .error .CellAlreadyOwned)) := by
  refine ⟨?_, ?_, ?_, ?_⟩
  · intro hmem
    rw [select_point]
    rw [if_pos (by simp [Bool.eq_false_iff, player_exist_iff, hmem])]
  · intro hmem hne
    rw [select_point]
    rw [if_neg (by simp [(player_exist_iff b p).mpr hmem]), if_pos hne]
  · intro hmem heq hall
    rw [select_point]
    rw [if_neg (by simp [(player_exist_iff b p).mpr hmem]), if_neg (by simp [heq])]
    rw [select_validated]
    rw [findIdx_none_of_all (fun x hx => by simp [hall x hx])]
  · intro hmem heq hnd q hq hpid how
    rw [select_point]
    rw [if_neg (by simp [(player_exist_iff b p).mpr hmem]), if_neg (by simp [heq])]
    rw [select_validated]
    rw [findIdx_pid_unique b.points hnd q hq pt.pid hpid]
    simp [how]

/-- Witness for C7: the four failures on the board after one move (w1 to
move, cell 0 owned by w0): an unregistered player, a registered player out of
turn, a foreign cell, and an already-owned cell. -/
theorem C7_witness :
    select_point wB1 (wpt 1 0 1) (some { id := 9, name := "z" }) =
      (wB1, .error .UnknownPlayer) ∧
    select_point wB1 (wpt 1 0 1) (some w0) = (wB1, .error .NotYourTurn) ∧
    select_point wB1 (wpt 9 0 0) (some w1) = (wB1, .error .CellNotOnBoard) ∧
    select_point wB1 (wpt 0 0 0) (some w1) = (wB1, .error .CellAlreadyOwned) :=
  ⟨(C7_validation_order wB1 (wpt 1 0 1) { id := 9, name := "z" }).1 (by decide),
   (C7_validation_order wB1 (wpt 1 0 1) w0).2.1 (by decide) (by decide),
   (C7_validation_order wB1 (wpt 9 0 0) w1).2.2.1 (by decide) (by decide) (by decide),
   (C7_validation_order wB1 (wpt 0 0 0) w1).2.2.2 (by decide) (by decide) (by decide)
     { pid := 0, row := 0, column := 0, owner := some w0 } (by decide) (by decide) (by decide)⟩

/-- Claim C3: on every successful move the acting player is the current turn,
the registration-order player list is unchanged, and the turn pointer moves
to the next player in registration order after the acting player, wrapping
from the last to the first — with no condition on the outcome status, so
this holds in particular on a move whose outcome is WIN or DRAW, the
rotation being performed before the outcome is computed. -/
theorem C3_turn_rotation (b b2 : GameBoard) (pt : Point) (pl? : Option Player)
    (ev : GameBoard_Event) (hturn : b.turn ∈ all_players b)
    (h : select_point b pt pl? = (b2, .ok ev)) :
    ev.player = b.turn ∧
    all_players b2 = all_players b ∧
    b2.turn = (all_players b).getD
      ((list_index (all_players b) ev.player + 1) % (all_players b).length) b.turn := by
  rcases select_ok_inv b b2 pt pl? ev h with ⟨q, hq, how, hev, hb2⟩
  subst hev
  subst hb2
  refine ⟨rfl, updAssoc_keys _ _ _, ?_⟩
  show next_turn b b.turn = _
  simp only [next_turn]
  have hlt : list_index (all_players b) b.turn < (all_players b).length := by
    rw [list_index]
    exact List.findIdx_lt_length.mpr ⟨b.turn, hturn, by simp⟩
  have hlen : (all_players b).length = b.playersAssoc.length := by
    simp [all_players]
  rcases Nat.lt_or_ge (list_index (all_players b) b.turn + 1) (all_players b).length with hc | hc
  · rw [if_neg (by omega), Nat.mod_eq_of_lt hc]
  · have he : list_index (all_players b) b.turn + 1 = (all_players b).length := by omega
    rw [if_pos (by omega), he, Nat.mod_self]

/-- Witness for C3: the first move of the 2 by 2 game, where the turn wraps
from `w0` to `w1`. -/
theorem C3_witness :
    wEv0.player = wB0.turn ∧
    all_players wB1 = all_players wB0 ∧
    wB1.turn = (all_players wB0).getD
      ((list_index (all_players wB0) wEv0.player + 1) % (all_players wB0).length) wB0.turn :=
  C3_turn_rotation wB0 wB1 (wpt 0 0 0) none wEv0 (by decide) (by rfl)

/-! ### Construction lemmas -/

theorem add_players_shape (ps : List Player) (acc assoc : List (Player × List Nat))
    (h : add_players acc ps = .ok assoc) :
    assoc = acc ++ (ps.map fun p => (p, ([] : List Nat))) ∧
      ps.Nodup ∧ ∀ p ∈ ps, p ∉ acc.map Prod.fst := by
  induction ps generalizing acc with
  | nil =>
    rw [add_players] at h
    injection h with h
    exact ⟨by simp [h.symm], by simp, by simp⟩
  | cons p t ih =>
    rw [add_players, _add_player] at h
    by_cases hp : (acc.any fun e => decide (e.1 = p)) = true
    · rw [if_pos hp] at h
      exact absurd h (by simp)
    · rw [if_neg hp] at h
      rcases ih (acc ++ [(p, [])]) h with ⟨hsh, hnd, hdisj⟩
      have hpacc : p ∉ acc.map Prod.fst := by
        intro hc
        apply hp
        rw [List.any_eq_true]
        rcases List.mem_map.mp hc with ⟨e, he, heq⟩
        exact ⟨e, he, by simp [heq]⟩
      refine ⟨by simp [hsh], List.nodup_cons.mpr ⟨?_, hnd⟩, ?_⟩
      · intro hpt
        have := hdisj p hpt
        simp at this
      · intro x hx
        rcases List.mem_cons.mp hx with hx | hx
        · exact hx ▸ hpacc
        · intro hc
          exact (hdisj x hx) (by simp [hc])

theorem add_players_err_of_dup (ps : List Player) (acc : List (Player × List Nat))
    (h : ¬ (ps.Nodup ∧ ∀ p ∈ ps, p ∉ acc.map Prod.fst)) :
    add_players acc ps = .error .DuplicatePlayer := by
  induction ps generalizing acc with
  | nil => simp at h
  | cons p t ih =>
    rw [add_players, _add_player]
    by_cases hp : (acc.any fun e => decide (e.1 = p)) = true
    · rw [if_pos hp]
    · rw [if_neg hp]
      apply ih
      rintro ⟨hnd2, hdisj2⟩
      apply h
      have hpacc : p ∉ acc.map Prod.fst := by
        intro hc
        apply hp
        rw [List.any_eq_true]
        rcases List.mem_map.mp hc with ⟨e, he, heq⟩
        exact ⟨e, he, by simp [heq]⟩
      refine ⟨List.nodup_cons.mpr ⟨?_, hnd2⟩, ?_⟩
      · intro hpt
        have := hdisj2 p hpt
        simp at this
      · intro x hx
        rcases List.mem_cons.mp hx with hx | hx
        · exact hx ▸ hpacc
        · intro hc
          exact (hdisj2 x hx) (by simp [hc])

theorem add_players_ok_of_nodup (ps : List Player) (acc : List (Player × List Nat))
    (hnd : ps.Nodup) (hdisj : ∀ p ∈ ps, p ∉ acc.map Prod.fst) :
    add_players acc ps = .ok (acc ++ ps.map fun p => (p, ([] : List Nat))) := by
  induction ps generalizing acc with
  | nil => simp [add_players]
  | cons p t ih =>
    have hne : ¬ ((acc.any fun e => decide (e.1 = p)) = true) := by
      intro hc
      rw [List.any_eq_true] at hc
      rcases hc with ⟨e, he, heq⟩
      simp only [decide_eq_true_eq] at heq
      exact hdisj p (List.mem_cons_self p t) (List.mem_map.mpr ⟨e, he, heq⟩)
    rw [add_players, _add_player, if_neg hne]
    rw [List.nodup_cons] at hnd
    have hdisj2 : ∀ x ∈ t, x ∉ (acc ++ [(p, [])]).map Prod.fst := by
      intro x hx hc
      simp only [List.map_append, List.mem_append] at hc
      rcases hc with hc | hc
      · exact hdisj x (List.mem_cons_of_mem p hx) hc
      · simp at hc
        exact hnd.1 (hc ▸ hx)
    show add_players (acc ++ [(p, [])]) t = .ok (acc ++ (p :: t).map fun p => (p, ([] : List Nat)))
    rw [ih (acc ++ [(p, [])]) hnd.2 hdisj2]
    simp

/-- Inversion of a successful construction: the board fields are the
canonical fresh state, the supplied players are pairwise distinct objects,
the starting player is among them, and there are at least two of them. -/
theorem mk_ok_inv (N : Nat) (ps : List Player) (t : Player) (b : GameBoard)
    (h : mkGameBoard N ps t = .ok b) :
    b.board_size = N ∧ b.points = stdPoints N ∧
    b.playersAssoc = (ps.map fun p => (p, ([] : List Nat))) ∧ b.turn = t ∧
    all_players b = ps ∧ t ∈ ps ∧ ps.Nodup ∧ 2 ≤ ps.length := by
  rw [mkGameBoard] at h
  split at h
  · split at h <;> exact absurd h (by simp)
  · rename_i hlen
    split at h
    · exact absurd h (by simp)
    · rename_i assoc hassoc
      split at h
      · rename_i hany
        injection h with hb
        subst hb
        rcases add_players_shape ps [] assoc hassoc with ⟨hsh, hnd, _⟩
        simp only [List.nil_append] at hsh
        subst hsh
        refine ⟨rfl, rfl, rfl, rfl, ?_, ?_, hnd, by omega⟩
        · have hid : (Prod.fst ∘ fun p : Player => (p, ([] : List Nat))) = id := rfl
          simp [all_players, List.map_map, hid]
        · rw [List.any_eq_true] at hany
          rcases hany with ⟨e, he, heq⟩
          simp only [decide_eq_true_eq] at heq
          rcases List.mem_map.mp he with ⟨p, hp, hpe⟩
          rw [← hpe] at heq
          simp at heq
          exact heq ▸ hp
      · exact absurd h (by simp)

/-- Counterexample to claim C6: two distinct Player objects carrying the same
name are both accepted by the construction — it succeeds instead of failing
with DuplicatePlayer, because the players dictionary keys on object identity,
not on the name. -/
theorem C6_counterexample :
    p6a.name = p6b.name ∧ p6a ≠ p6b ∧
    got_ok (mkGameBoard 3 [p6a, p6b] p6a) = true := by decide

/-- Claim C6 (amended): duplicate detection at construction is by object
identity — the construction fails with DuplicatePlayer exactly when the same
Player object appears twice in the supplied list; a list of pairwise distinct
Player objects (whatever their names) with a registered starting player is
accepted. -/
theorem C6_amended_duplicate_identity (N : Nat) (ps : List Player) (t : Player)
    (hlen : 2 ≤ ps.length) :
    (¬ ps.Nodup → mkGameBoard N ps t = .error .DuplicatePlayer) ∧
    (ps.Nodup → t ∈ ps → got_ok (mkGameBoard N ps t) = true) := by
  constructor
  · intro hdup
    rw [mkGameBoard, if_neg (by omega)]
    rw [add_players_err_of_dup ps [] (by simp [hdup])]
  · intro hnd hmem
    rw [mkGameBoard, if_neg (by omega)]
    rw [add_players_ok_of_nodup ps [] hnd (by simp)]
    show got_ok (if ((List.map (fun p => (p, [])) ps).any fun e => decide (e.1 = t)) = true
      then _ else _) = true
    rw [if_pos ?_]
    · rfl
    · rw [List.any_eq_true]
      exact ⟨(t, []), List.mem_map.mpr ⟨t, hmem, rfl⟩, by simp⟩

/-- Witness for the amended C6: the same object twice is rejected with
DuplicatePlayer; two distinct same-named objects are accepted. -/
theorem C6_witness :
    mkGameBoard 3 [p6a, p6a] p6a = .error .DuplicatePlayer ∧
    got_ok (mkGameBoard 3 [p6a, p6b] p6a) = true :=
  ⟨(C6_amended_duplicate_identity 3 [p6a, p6a] p6a (by decide)).1 (by decide),
   (C6_amended_duplicate_identity 3 [p6a, p6b] p6a (by decide)).2 (by decide) (by decide)⟩

/-! ### The cell lookup -/

theorem stdPoints_length (N : Nat) : (stdPoints N).length = N * N := by
  simp [stdPoints]

theorem stdPoints_getElem? (N i : Nat) (hi : i < N * N) :
    (stdPoints N)[i]? =
      some { pid := i, row := Int.ofNat (i / N), column := Int.ofNat (i % N), owner := none } := by
  rw [stdPoints, List.getElem?_map, List.getElem?_range hi]
  rfl

/-- Claim C5 (amended): `get_point` is raw Python list indexing at the flat
index row * board_size + column.  In-range coordinates return the cell at
(row, column); but any pair whose flat index lands in [0, N*N) returns the
cell at that flat index even when the coordinates are out of range (so
column ≥ N slides into a later row), a flat index in [-N*N, 0) wraps around
from the end of the list, and only a flat index outside [-N*N, N*N) fails. -/
theorem C5_amended_flat_indexing (N : Nat) (ps : List Player) (t : Player) (b : GameBoard)
    (h : mkGameBoard N ps t = .ok b) (row column : Int) :
    (0 ≤ row → row < N → 0 ≤ column → column < N →
      get_point b row column =
        some { pid := (row * N + column).toNat, row := row, column := column,
               owner := none }) ∧
    (0 ≤ row * N + column → row * N + column < (N : Int) ^ 2 →
      get_point b row column = (stdPoints N)[(row * N + column).toNat]?) ∧
    (-((N : Int) ^ 2) ≤ row * N + column → row * N + column < 0 →
      get_point b row column = (stdPoints N)[(row * N + column + (N : Int) ^ 2).toNat]?) ∧
    ((N : Int) ^ 2 ≤ row * N + column → get_point b row column = none) ∧
    (row * N + column < -((N : Int) ^ 2) → get_point b row column = none) := by
  rcases mk_ok_inv N ps t b h with ⟨hbs, hpts, -⟩
  have hgp : get_point b row column = pyGet (stdPoints N) (row * N + column) := by
    rw [get_point, hbs, hpts]
  have hA : ((N * N : Nat) : Int) = (N : Int) ^ 2 := by push_cast; ring
  have hlen : ((stdPoints N).length : Int) = (N : Int) ^ 2 := by
    rw [stdPoints_length]; exact hA
  refine ⟨?_, ?_, ?_, ?_, ?_⟩
  · intro hr0 hrN hc0 hcN
    obtain ⟨r, rfl⟩ := Int.eq_ofNat_of_zero_le hr0
    obtain ⟨c, rfl⟩ := Int.eq_ofNat_of_zero_le hc0
    have hrN' : r < N := by exact_mod_cast hrN
    have hcN' : c < N := by exact_mod_cast hcN
    have hN : 0 < N := by omega
    have hcast : ((r : Int) * N + c) = ((r * N + c : Nat) : Int) := by push_cast; ring
    have h1 : (r + 1) * N ≤ N * N := Nat.mul_le_mul_right N hrN'
    rw [Nat.add_mul, Nat.one_mul] at h1
    have hlt2 : r * N + c < N * N := by omega
    have hdiv : (r * N + c) / N = r := by
      rw [Nat.mul_comm r N, Nat.mul_add_div hN, Nat.div_eq_of_lt hcN', Nat.add_zero]
    have hmod : (r * N + c) % N = c := by
      rw [Nat.mul_comm r N, Nat.mul_add_mod]
      exact Nat.mod_eq_of_lt hcN'
    rw [hgp, hcast, pyGet, if_pos (by positivity)]
    rw [Int.toNat_natCast]
    rw [stdPoints_getElem? N _ hlt2, hdiv, hmod]
    rfl
  · intro h0 hlt
    rw [hgp, pyGet, if_pos h0]
  · intro hge hneg
    rw [hgp, pyGet, if_neg (by omega), if_pos (by omega), hlen]
  · intro hge
    have hN2 : (0 : Int) ≤ (N : Int) ^ 2 := by positivity
    rw [hgp, pyGet, if_pos (by omega)]
    apply List.getElem?_eq_none
    rw [stdPoints_length]
    omega
  · intro hlt
    have hN2 : (0 : Int) ≤ (N : Int) ^ 2 := by positivity
    rw [hgp, pyGet, if_neg (by omega), if_neg (by rw [hlen]; omega)]

/-- Counterexample to claim C5: on a 3 by 3 board, `get_point 0 3` (column out
of range) does not fail — it returns the cell at (1,0) — and `get_point (-1) 0`
(negative row) does not fail either — it wraps around and returns the cell at
(2,0). -/
theorem C5_counterexample :
    got_ok (mkGameBoard 3 wPlayers w0) = true ∧
    get_point wB5 0 3 = some { pid := 3, row := 1, column := 0, owner := none } ∧
    get_point wB5 (-1) 0 = some { pid := 6, row := 2, column := 0, owner := none } := by
  decide

/-- Witness for the amended C5 on the 3 by 3 board: an in-range lookup, an
in-range flat index from out-of-range coordinates, a wrapped negative index,
and the two genuinely failing cases. -/
theorem C5_witness :
    get_point wB5 1 2 =
      some { pid := ((1 : Int) * 3 + 2).toNat, row := 1, column := 2, owner := none } ∧
    get_point wB5 0 3 = (stdPoints 3)[((0 : Int) * 3 + 3).toNat]? ∧
    get_point wB5 (-1) 0 = (stdPoints 3)[((-1 : Int) * 3 + 0 + (3 : Int) ^ 2).toNat]? ∧
    get_point wB5 3 0 = none ∧
    get_point wB5 (-4) 0 = none :=
  ⟨(C5_amended_flat_indexing 3 wPlayers w0 wB5 (by rfl) 1 2).1
      (by decide) (by decide) (by decide) (by decide),
   (C5_amended_flat_indexing 3 wPlayers w0 wB5 (by rfl) 0 3).2.1 (by decide) (by decide),
   (C5_amended_flat_indexing 3 wPlayers w0 wB5 (by rfl) (-1) 0).2.2.1 (by decide) (by decide),
   (C5_amended_flat_indexing 3 wPlayers w0 wB5 (by rfl) 3 0).2.2.2.1 (by decide),
   (C5_amended_flat_indexing 3 wPlayers w0 wB5 (by rfl) (-4) 0).2.2.2.2 (by decide)⟩

/-- Claim C1 (amended): on a successful move, the outcome is DRAW if and only
if all board_size squared cells are owned after the move AND the acting
player's owned-cell count has reached board_size AND the win check does not
fire.  The count prefilter that skips win evaluation also skips the draw
evaluation, so a board-filling move by a player owning fewer than board_size
cells yields NOTHING, not DRAW. -/
theorem C1_amended_draw_condition (b b2 : GameBoard) (pt : Point) (pl? : Option Player)
    (ev : GameBoard_Event) (h : select_point b pt pl? = (b2, .ok ev)) :
    (ev.status = GameStatus.DRAW ↔
      countOwned b2 = b.board_size ^ 2 ∧
      b.board_size ≤ (dictGet b2.playersAssoc ev.player).length ∧
      _win_position_check b.board_size (player_cells b2 ev.player) = false) := by
  rcases select_ok_inv b b2 pt pl? ev h with ⟨q, hq, how, hev, hb2⟩
  subst hev
  subst hb2
  simp only
  have hs : select_status b pt b.turn q =
      (if b.board_size ≤ (dictGet (select_apply b pt b.turn q).playersAssoc b.turn).length then
        if _win_position_check b.board_size (player_cells (select_apply b pt b.turn q) b.turn)
          then GameStatus.WIN
        else if countOwned (select_apply b pt b.turn q) = b.board_size ^ 2 then GameStatus.DRAW
        else GameStatus.NOTHING
      else GameStatus.NOTHING) := rfl
  rw [hs]
  constructor
  · intro hd
    split at hd
    · rename_i hlen
      split at hd
      · exact absurd hd (by simp)
      · rename_i hwin
        split at hd
        · rename_i hcount
          exact ⟨hcount, hlen, by simpa using hwin⟩
        · exact absurd hd (by simp)
    · exact absurd hd (by simp)
  · rintro ⟨hcount, hlen, hwin⟩
    rw [if_pos hlen, if_neg (by simp [hwin]), if_pos hcount]

/-- Witness for the amended C1: the final move of the four-player 2 by 2
game. -/
theorem C1_witness :
    (xEv.status = GameStatus.DRAW ↔
      countOwned xRes.1 = xB3.board_size ^ 2 ∧
      xB3.board_size ≤ (dictGet xRes.1.playersAssoc xEv.player).length ∧
      _win_position_check xB3.board_size (player_cells xRes.1 xEv.player) = false) :=
  C1_amended_draw_condition xB3 xRes.1 (wpt 3 1 1) none xEv (by rfl)

/-- Counterexample to claim C1: with four players on a 2 by 2 board, the
fourth successful move makes all 4 cells owned, no player passes the win
check, and yet the returned status is NOTHING, not DRAW — the acting player
owns only one cell, below board_size, so the win/draw evaluation is skipped
entirely. -/
theorem C1_counterexample :
    got_ok (mkGameBoard 2 xPlayers w0) = true ∧
    sel_ok xRes = true ∧
    xEv.status = GameStatus.NOTHING ∧
    countOwned xRes.1 = 2 ^ 2 ∧
    (xPlayers.map fun p => _win_position_check 2 (player_cells xRes.1 p)) =
      [false, false, false, false] := by
  decide

/-! ### The consecutive-run win check -/

theorem streak_pos (s : List Int) (fuel : Nat) (b : Int) : 1 ≤ _streak s fuel b := by
  cases fuel with
  | zero => simp [_streak]
  | succ f =>
    rw [_streak]
    split <;> omega

/-- Soundness of the walk: a streak of at least N starting at a member of the
set means the N consecutive values from the start are all in the set. -/
theorem streak_sound (s : List Int) :
    ∀ (fuel : Nat) (b : Int) (N : Nat), b ∈ s → N ≤ _streak s fuel b →
      ∀ i : Nat, i < N → b + i ∈ s := by
  intro fuel
  induction fuel with
  | zero =>
    intro b N hb h i hi
    rw [_streak] at h
    have hz : i = 0 := by omega
    subst hz
    simpa using hb
  | succ f ih =>
    intro b N hb h i hi
    rw [_streak] at h
    by_cases hb1 : (b + 1) ∈ s
    · rw [if_pos hb1] at h
      cases i with
      | zero => simpa using hb
      | succ j =>
        have hj := ih (b + 1) (N - 1) hb1 (by omega) j (by omega)
        have : b + ((j + 1 : Nat) : Int) = (b + 1) + (j : Int) := by push_cast; ring
        rw [this]
        exact hj
    · rw [if_neg hb1] at h
      have hz : i = 0 := by omega
      subst hz
      simpa using hb

/-- Completeness of the walk: a chain of k+1 consecutive members starting at
b forces a streak of at least k+1, given enough fuel. -/
theorem streak_ge (s : List Int) :
    ∀ (k fuel : Nat) (b : Int), (∀ i : Nat, i ≤ k → b + i ∈ s) → k ≤ fuel →
      k + 1 ≤ _streak s fuel b := by
  intro k
  induction k with
  | zero => intro fuel b _ _; exact streak_pos s fuel b
  | succ j ih =>
    intro fuel b hchain hfuel
    cases fuel with
    | zero => omega
    | succ f =>
      rw [_streak]
      have hb1 : (b + 1) ∈ s := by
        have := hchain 1 (by omega)
        simpa using this
      rw [if_pos hb1]
      have := ih f (b + 1) ?_ (by omega)
      · omega
      · intro i hi
        have := hchain (i + 1) (by omega)
        have hc : b + ((i + 1 : Nat) : Int) = (b + 1) + (i : Int) := by push_cast; ring
        rw [hc] at this
        exact this

/-- Correctness of `_longest_consecutive`: for a positive board size it
returns true exactly when the list contains board_size consecutive
integers. -/
theorem longest_consecutive_iff (N : Nat) (hN : 1 ≤ N) (nums : List Int) :
    _longest_consecutive N nums = true ↔
      ∃ a : Int, ∀ i : Nat, i < N → a + i ∈ nums := by
  rw [_longest_consecutive]
  simp only [List.any_eq_true, Bool.and_eq_true, Bool.not_eq_true', decide_eq_false_iff_not,
    decide_eq_true_eq]
  constructor
  · rintro ⟨num, hmem, hpred, hstreak⟩
    exact ⟨num, fun i hi =>
      List.mem_dedup.mp (streak_sound nums.dedup _ num N hmem hstreak i hi)⟩
  · rintro ⟨a, ha⟩
    have ha' : ∀ i : Nat, i < N → a + (i : Int) ∈ nums.dedup := fun i hi =>
      List.mem_dedup.mpr (ha i hi)
    have ha0 : a ∈ nums.dedup := by simpa using ha' 0 (by omega)
    have hL1 : 1 ≤ nums.dedup.length := List.length_pos.mpr (by
      intro hc
      rw [hc] at ha0
      simp at ha0)
    have hbound : ∀ j : Nat, (∀ i : Nat, i ≤ j → a - (i : Int) ∈ nums.dedup) →
        j < nums.dedup.length := by
      intro j hj
      have hsub : ((List.range (j + 1)).map fun i : Nat => a - (i : Int)) ⊆ nums.dedup := by
        intro x hx
        rcases List.mem_map.mp hx with ⟨i, hi, rfl⟩
        exact hj i (by simpa using Nat.lt_succ_iff.mp (List.mem_range.mp hi))
      have hndp : ((List.range (j + 1)).map fun i : Nat => a - (i : Int)).Nodup := by
        refine List.Nodup.map ?_ (List.nodup_range (j + 1))
        intro i1 i2 hi
        simp only at hi
        omega
      have hle := (hndp.subperm hsub).length_le
      simp only [List.length_map, List.length_range] at hle
      omega
    have hP0 : ∀ i : Nat, i ≤ 0 → a - (i : Int) ∈ nums.dedup := by
      intro i hi
      have hz : i = 0 := by omega
      subst hz
      simpa using ha0
    have hPjm : ∀ i : Nat,
        i ≤ Nat.findGreatest (fun j => ∀ i : Nat, i ≤ j → a - (i : Int) ∈ nums.dedup)
          nums.dedup.length →
        a - (i : Int) ∈ nums.dedup :=
      Nat.findGreatest_spec
        (P := fun j => ∀ i : Nat, i ≤ j → a - (i : Int) ∈ nums.dedup) (m := 0) (by omega) hP0
    have hjmlt : Nat.findGreatest (fun j => ∀ i : Nat, i ≤ j → a - (i : Int) ∈ nums.dedup)
        nums.dedup.length < nums.dedup.length := hbound _ hPjm
    have hnot : ¬ (∀ i : Nat,
        i ≤ Nat.findGreatest (fun j => ∀ i : Nat, i ≤ j → a - (i : Int) ∈ nums.dedup)
          nums.dedup.length + 1 →
        a - (i : Int) ∈ nums.dedup) :=
      Nat.findGreatest_is_greatest
        (P := fun j => ∀ i : Nat, i ≤ j → a - (i : Int) ∈ nums.dedup)
        (n := nums.dedup.length) (by omega) (by omega)
    set jm := Nat.findGreatest (fun j => ∀ i : Nat, i ≤ j → a - (i : Int) ∈ nums.dedup)
      nums.dedup.length with hjmdef
    have hb1 : a - ((jm : Int) + 1) ∉ nums.dedup := by
      intro hc
      apply hnot
      intro i hi
      rcases Nat.lt_or_ge i (jm + 1) with hi' | hi'
      · exact hPjm i (by omega)
      · have hieq : i = jm + 1 := by omega
        subst hieq
        have : ((jm + 1 : Nat) : Int) = (jm : Int) + 1 := by push_cast; ring
        rw [this]
        exact hc
    have hchain : ∀ i : Nat, i ≤ jm + (N - 1) → (a - jm) + (i : Int) ∈ nums.dedup := by
      intro i hi
      rcases le_or_lt i jm with hij | hij
      · have h2 := hPjm (jm - i) (by omega)
        rw [Nat.cast_sub hij] at h2
        rw [show a - jm + (i : Int) = a - ((jm : Int) - i) from by ring]
        exact h2
      · have h4 := ha' (i - jm) (by omega)
        rw [Nat.cast_sub (Nat.le_of_lt hij)] at h4
        rw [show a - jm + (i : Int) = a + ((i : Int) - jm) from by ring]
        exact h4
    have hboundk : jm + N ≤ nums.dedup.length := by
      have hsub : ((List.range (jm + N)).map fun i : Nat => (a - jm) + (i : Int)) ⊆
          nums.dedup := by
        intro x hx
        rcases List.mem_map.mp hx with ⟨i, hi, rfl⟩
        exact hchain i (by
          have := List.mem_range.mp hi
          omega)
      have hndp : ((List.range (jm + N)).map fun i : Nat => (a - jm) + (i : Int)).Nodup := by
        refine List.Nodup.map ?_ (List.nodup_range (jm + N))
        intro i1 i2 hi
        simp only at hi
        omega
      have hle := (hndp.subperm hsub).length_le
      simp only [List.length_map, List.length_range] at hle
      exact hle
    have hstreak := streak_ge nums.dedup (jm + (N - 1)) nums.dedup.length (a - jm)
      hchain (by omega)
    refine ⟨a - jm, by simpa using hchain 0 (by omega), ?_, by omega⟩
    rw [show a - (jm : Int) - 1 = a - ((jm : Int) + 1) from by ring]
    exact hb1

theorem mem_groupH (pts : List (Int × Int)) (r c : Int) :
    (c ∈ pts.filterMap fun pt => if pt.1 = r then some pt.2 else none) ↔ (r, c) ∈ pts := by
  rw [List.mem_filterMap]
  constructor
  · rintro ⟨⟨x, y⟩, hmem, hf⟩
    by_cases hx : x = r
    · subst hx
      rw [if_pos rfl] at hf
      injection hf with hf
      subst hf
      exact hmem
    · simp [hx] at hf
  · intro h
    exact ⟨(r, c), h, by simp⟩

theorem mem_groupV (pts : List (Int × Int)) (c r : Int) :
    (r ∈ pts.filterMap fun pt => if pt.2 = c then some pt.1 else none) ↔ (r, c) ∈ pts := by
  rw [List.mem_filterMap]
  constructor
  · rintro ⟨⟨x, y⟩, hmem, hf⟩
    by_cases hy : y = c
    · subst hy
      rw [if_pos rfl] at hf
      injection hf with hf
      subst hf
      exact hmem
    · simp [hy] at hf
  · intro h
    exact ⟨(r, c), h, by simp⟩

/-- Characterization of `_win_position_check`: it fires exactly when the
player's cells contain board_size cells of equal row with consecutive
columns, or of equal column with consecutive rows. -/
theorem win_check_iff (N : Nat) (hN : 1 ≤ N) (pts : List (Int × Int)) :
    _win_position_check N pts = true ↔
      ((∃ r a : Int, ∀ i : Nat, i < N → (r, a + (i : Int)) ∈ pts) ∨
       (∃ c a : Int, ∀ i : Nat, i < N → (a + (i : Int), c) ∈ pts)) := by
  rw [_win_position_check]
  simp only [List.any_append, Bool.or_eq_true, List.any_eq_true]
  constructor
  · rintro (⟨l, hl, hLC⟩ | ⟨l, hl, hLC⟩)
    · rcases List.mem_map.mp hl with ⟨r, hr, rfl⟩
      rcases (longest_consecutive_iff N hN _).mp hLC with ⟨a, ha⟩
      exact Or.inl ⟨r, a, fun i hi => (mem_groupH pts r _).mp (ha i hi)⟩
    · rcases List.mem_map.mp hl with ⟨c, hcm, rfl⟩
      rcases (longest_consecutive_iff N hN _).mp hLC with ⟨a, ha⟩
      exact Or.inr ⟨c, a, fun i hi => (mem_groupV pts c _).mp (ha i hi)⟩
  · rintro (⟨r, a, ha⟩ | ⟨c, a, ha⟩)
    · refine Or.inl ⟨pts.filterMap fun pt => if pt.1 = r then some pt.2 else none,
        List.mem_map.mpr ⟨r, ?_, rfl⟩, ?_⟩
      · rw [List.mem_dedup]
        exact List.mem_map.mpr ⟨(r, a + ((0 : Nat) : Int)), ha 0 (by omega), rfl⟩
      · exact (longest_consecutive_iff N hN _).mpr
          ⟨a, fun i hi => (mem_groupH pts r _).mpr (ha i hi)⟩
    · refine Or.inr ⟨pts.filterMap fun pt => if pt.2 = c then some pt.1 else none,
        List.mem_map.mpr ⟨c, ?_, rfl⟩, ?_⟩
      · rw [List.mem_dedup]
        exact List.mem_map.mpr ⟨(a + ((0 : Nat) : Int), c), ha 0 (by omega), rfl⟩
      · exact (longest_consecutive_iff N hN _).mpr
          ⟨a, fun i hi => (mem_groupV pts c _).mpr (ha i hi)⟩

/-- Claim C2: the win check returns true if and only if the player owns
board_size cells all sharing one row index with board_size consecutive
column indices, or all sharing one column index with board_size consecutive
row indices; and (for board_size at least 2, so that lines have more than
one cell) a set of cells forming exactly a diagonal line — in either
direction — never makes the win check return true. -/
theorem C2_win_check_characterization (N : Nat) (pts : List (Int × Int))
    (a b : Int) (dir : Bool) (hN : 1 ≤ N) :
    (_win_position_check N pts = true ↔
      ((∃ r a : Int, ∀ i : Nat, i < N → (r, a + (i : Int)) ∈ pts) ∨
       (∃ c a : Int, ∀ i : Nat, i < N → (a + (i : Int), c) ∈ pts))) ∧
    (2 ≤ N →
      pts = (List.range N).map (fun i : Nat =>
        (a + (i : Int), if dir then b + (i : Int) else b - (i : Int))) →
      _win_position_check N pts = false) := by
  refine ⟨win_check_iff N hN pts, ?_⟩
  intro h2 hpts
  by_contra hc
  rw [Bool.not_eq_false] at hc
  rcases (win_check_iff N hN pts).mp hc with ⟨r, a', ha⟩ | ⟨c, a', ha⟩
  · have h0 := ha 0 (by omega)
    have h1 := ha 1 (by omega)
    rw [hpts] at h0 h1
    rcases List.mem_map.mp h0 with ⟨i0, hi0, he0⟩
    rcases List.mem_map.mp h1 with ⟨i1, hi1, he1⟩
    have f0 := congrArg Prod.fst he0
    have f1 := congrArg Prod.fst he1
    have c0 := congrArg Prod.snd he0
    have c1 := congrArg Prod.snd he1
    simp only at f0 f1 c0 c1
    have hii : i0 = i1 := by omega
    subst hii
    rw [c0] at c1
    omega
  · have h0 := ha 0 (by omega)
    have h1 := ha 1 (by omega)
    rw [hpts] at h0 h1
    rcases List.mem_map.mp h0 with ⟨i0, hi0, he0⟩
    rcases List.mem_map.mp h1 with ⟨i1, hi1, he1⟩
    have f0 := congrArg Prod.fst he0
    have f1 := congrArg Prod.fst he1
    have c0 := congrArg Prod.snd he0
    have c1 := congrArg Prod.snd he1
    simp only at f0 f1 c0 c1
    cases dir with
    | true =>
      simp at c0 c1
      have hii : i0 = i1 := by omega
      subst hii
      omega
    | false =>
      simp at c0 c1
      have hii : i0 = i1 := by omega
      subst hii
      omega

/-- Witness for C2: a 3-cell diagonal does not win on a 3 by 3 board, and the
characterization holds on the top-row cell set, where it does fire. -/
theorem C2_witness :
    _win_position_check 3 wDiag = false ∧
    (_win_position_check 3 wRow3 = true ↔
      ((∃ r a : Int, ∀ i : Nat, i < 3 → (r, a + (i : Int)) ∈ wRow3) ∨
       (∃ c a : Int, ∀ i : Nat, i < 3 → (a + (i : Int), c) ∈ wRow3))) :=
  ⟨(C2_win_check_characterization 3 wDiag 0 0 true (by decide)).2 (by decide) (by decide),
   (C2_win_check_characterization 3 wRow3 0 0 true (by decide)).1⟩

/-! ### State conservation across move sequences -/

theorem next_turn_mem (b : GameBoard) (player : Player) (h : b.turn ∈ all_players b) :
    next_turn b player ∈ all_players b := by
  simp only [next_turn]
  rw [List.getD_eq_getElem?_getD]
  rcases Nat.lt_or_ge (if list_index (all_players b) player + 1 = b.playersAssoc.length then 0
    else list_index (all_players b) player + 1) (all_players b).length with hc | hc
  · rw [List.getElem?_eq_getElem hc]
    exact List.getElem_mem hc
  · rw [List.getElem?_eq_none hc]
    exact h

theorem flatten_nil_lists (ps : List Player) :
    ((ps.map fun p => (p, ([] : List Nat))).map Prod.snd).flatten = [] := by
  induction ps with
  | nil => rfl
  | cons p t ih => simpa using ih

theorem stdPoints_unowned (N : Nat) :
    ((stdPoints N).filter fun q => decide (q.owner ≠ none)) = [] := by
  rw [List.filter_eq_nil_iff]
  intro a ha
  rw [stdPoints] at ha
  rcases List.mem_map.mp ha with ⟨i, hi, rfl⟩
  simp

theorem mk_inv (N : Nat) (ps : List Player) (t : Player) (b : GameBoard)
    (h : mkGameBoard N ps t = .ok b) : BoardInv b ∧ countOwned b = 0 := by
  rcases mk_ok_inv N ps t b h with ⟨hbs, hpts, hassoc, hturn, hap, htmem, hnd, hlen⟩
  have hlp : allListPids b = [] := by
    rw [allListPids, hassoc]
    exact flatten_nil_lists ps
  have hcnt : countOwned b = 0 := by
    rw [countOwned, hpts, stdPoints_unowned]
    rfl
  refine ⟨⟨?_, ?_, ?_, ?_, ?_, ?_⟩, hcnt⟩
  · rw [hap, hturn]
    exact htmem
  · rw [hap]
    exact hnd
  · rw [hpts, stdPoints]
    rw [List.map_map]
    have hid : (Point.pid ∘ fun i : Nat =>
        ({ pid := i, row := Int.ofNat (i / N), column := Int.ofNat (i % N),
           owner := none } : Point)) = id := rfl
    rw [hid, List.map_id]
    exact List.nodup_range (N * N)
  · intro x
    rw [hlp, owned_pids, hpts, stdPoints_unowned]
    simp
  · rw [hlp]
    exact List.nodup_nil
  · rw [hcnt, hlp]
    rfl

/-- A successful move preserves the state invariant and increments the
owned-cell count by exactly one. -/
theorem select_ok_step (b b2 : GameBoard) (pt : Point) (pl? : Option Player)
    (ev : GameBoard_Event) (hInv : BoardInv b)
    (h : select_point b pt pl? = (b2, .ok ev)) :
    BoardInv b2 ∧ countOwned b2 = countOwned b + 1 := by
  rcases select_ok_inv b b2 pt pl? ev h with ⟨q, hq, how, hev, hb2⟩
  rcases findIdx_decomp b.points _ q hq with ⟨T, D, hl, hidx, hT⟩
  have hqpid : q.pid = pt.pid := by
    have := (findIdx_mem_prop hq).2
    simpa using this
  have hfresh : pt.pid ∉ allListPids b := by
    intro hc
    rw [hInv.mem_iff pt.pid, owned_pids, List.mem_map] at hc
    rcases hc with ⟨x, hxf, hxpid⟩
    rw [List.mem_filter] at hxf
    rcases hxf with ⟨hxmem, hxo⟩
    rw [hl] at hxmem
    rcases List.mem_append.mp hxmem with hx | hx
    · have hne := hT x hx
      simp only [decide_eq_false_iff_not] at hne
      exact hne hxpid
    · rcases List.mem_cons.mp hx with hx | hx
      · subst hx
        rw [how] at hxo
        simp at hxo
      · have hnd := hInv.pids_nodup
        rw [hl] at hnd
        simp only [List.map_append, List.map_cons, List.nodup_append, List.nodup_cons] at hnd
        exact hnd.2.1.1 (hqpid ▸ hxpid ▸ List.mem_map_of_mem Point.pid hx)
  have hpts2 : b2.points = T ++ { q with owner := some b.turn } :: D := by
    rw [hb2]
    show b.points.set (b.points.findIdx fun r => decide (r.pid = pt.pid)) _ = _
    rw [hidx, hl, set_at_length]
  have hassoc2 : b2.playersAssoc = updAssoc b.playersAssoc b.turn pt.pid := by
    rw [hb2]
    rfl
  have hturn2 : b2.turn = next_turn b b.turn := by
    rw [hb2]
    rfl
  have hturnmem : b.turn ∈ all_players b := hInv.turn_mem
  have hkeymem : b.turn ∈ b.playersAssoc.map Prod.fst := hturnmem
  have hap2 : all_players b2 = all_players b := by
    rw [all_players, hassoc2, updAssoc_keys]
    rfl
  have howned2 : owned_pids b2 =
      (T.filter fun r => decide (r.owner ≠ none)).map Point.pid ++
        pt.pid :: (D.filter fun r => decide (r.owner ≠ none)).map Point.pid := by
    rw [owned_pids, hpts2]
    simp only [List.filter_append, List.filter_cons]
    rw [if_pos (by simp)]
    simp [hqpid]
  have howned : owned_pids b =
      (T.filter fun r => decide (r.owner ≠ none)).map Point.pid ++
        (D.filter fun r => decide (r.owner ≠ none)).map Point.pid := by
    rw [owned_pids, hl]
    simp only [List.filter_append, List.filter_cons]
    rw [if_neg (by simp [how])]
    simp
  have hcount2 : countOwned b2 = countOwned b + 1 := by
    rw [countOwned, countOwned, hpts2, hl]
    simp only [List.filter_append, List.filter_cons]
    rw [if_pos (by simp), if_neg (by simp [how])]
    simp only [List.length_append, List.length_cons]
    omega
  have hlp2mem : ∀ x : Nat, x ∈ allListPids b2 ↔ x ∈ allListPids b ∨ x = pt.pid := by
    intro x
    rw [allListPids, hassoc2, updAssoc_flatten_mem]
    constructor
    · rintro (hx | ⟨hm, hx⟩)
      · exact Or.inl hx
      · exact Or.inr hx
    · rintro (hx | hx)
      · exact Or.inl hx
      · exact Or.inr ⟨hkeymem, hx⟩
  have hlp2len : (allListPids b2).length = (allListPids b).length + 1 := by
    rw [allListPids, allListPids, hassoc2]
    exact updAssoc_flatten_len _ _ _ hInv.keys_nodup hkeymem
  have hlp2nodup : (allListPids b2).Nodup := by
    rw [allListPids, hassoc2]
    exact updAssoc_flatten_nodup _ _ _ hInv.keys_nodup hInv.lists_nodup hfresh
  have hmem2 : ∀ x : Nat, x ∈ allListPids b2 ↔ x ∈ owned_pids b2 := by
    intro x
    rw [hlp2mem x, howned2, hInv.mem_iff x, howned]
    simp only [List.mem_append, List.mem_cons]
    tauto
  have hpid2 : (b2.points.map Point.pid).Nodup := by
    rw [hpts2]
    have hsame : (T ++ ({ q with owner := some b.turn } : Point) :: D).map Point.pid =
        (T ++ q :: D).map Point.pid := by
      simp
    rw [hsame, ← hl]
    exact hInv.pids_nodup
  have hturn2mem : b2.turn ∈ all_players b2 := by
    rw [hturn2, hap2]
    exact next_turn_mem b b.turn hturnmem
  refine ⟨⟨hturn2mem, ?_, hpid2, hmem2, hlp2nodup, ?_⟩, hcount2⟩
  · rw [hap2]
    exact hInv.keys_nodup
  · rw [hcount2, hInv.count_eq, hlp2len]

theorem runTrace_inv (ms : List (Point × Option Player)) :
    ∀ b b2 : GameBoard, BoardInv b → runTrace b ms = some b2 →
      BoardInv b2 ∧ countOwned b2 = countOwned b + ms.length := by
  induction ms with
  | nil =>
    intro b b2 hInv h
    rw [runTrace] at h
    injection h with h
    subst h
    exact ⟨hInv, by simp⟩
  | cons m t ih =>
    intro b b2 hInv h
    rw [runTrace] at h
    split at h
    · rename_i b3 ev hsel
      rcases select_ok_step b b3 m.1 m.2 ev hInv hsel with ⟨hInv3, hc3⟩
      rcases ih b3 b2 hInv3 h with ⟨hInv2, hc2⟩
      refine ⟨hInv2, ?_⟩
      rw [hc2, hc3]
      simp only [List.length_cons]
      omega
    · exact absurd h (by simp)

/-- Claim C8: after any k successful moves from a freshly constructed board,
the number of cells with a non-null owner equals k, equals the sum of the
lengths of all players' owned-cell lists, and a cell identity appears in some
player's list exactly when that cell has a non-null owner, with no identity
appearing twice across or within lists. -/
theorem C8_ownership_conservation (N : Nat) (ps : List Player) (t : Player)
    (b0 b : GameBoard) (ms : List (Point × Option Player)) (pid : Nat)
    (h0 : mkGameBoard N ps t = .ok b0) (h : runTrace b0 ms = some b) :
    countOwned b = ms.length ∧
    (b.playersAssoc.map fun e => e.2.length).sum = ms.length ∧
    (pid ∈ allListPids b ↔ pid ∈ owned_pids b) ∧
    (allListPids b).Nodup := by
  rcases mk_inv N ps t b0 h0 with ⟨hInv0, hc0⟩
  rcases runTrace_inv ms b0 b hInv0 h with ⟨hInv, hc⟩
  have hcount : countOwned b = ms.length := by omega
  have hsum : (b.playersAssoc.map fun e => e.2.length).sum = (allListPids b).length := by
    rw [allListPids, List.length_flatten, List.map_map]
    rfl
  refine ⟨hcount, ?_, hInv.mem_iff pid, hInv.lists_nodup⟩
  rw [hsum, ← hInv.count_eq, hcount]

/-- Witness for C8: one move into the 2 by 2 game. -/
theorem C8_witness :
    countOwned wB1 = 1 ∧
    (wB1.playersAssoc.map fun e => e.2.length).sum = 1 ∧
    ((0 : Nat) ∈ allListPids wB1 ↔ (0 : Nat) ∈ owned_pids wB1) ∧
    (allListPids wB1).Nodup :=
  C8_ownership_conservation 2 wPlayers w0 wB0 wB1 [(wpt 0 0 0, none)] 0 (by rfl) (by rfl)
